import Mathlib

/-!
A verification development for the inkwell static cost-estimation and
instrumentation engine (`cli/src/analyzer.rs`, `cli/src/instrumentor.rs`,
`cli/src/types.rs`).

The Rust code is shallowly embedded: pure functions become Lean functions,
machine integers (`u64`, `usize`) become `Nat` (all arithmetic in the source
stays far below 2^64, and the one subtraction uses `saturating_sub`, which is
exactly `Nat` subtraction), `f64` percentages become `Rat`, fallible code
returns `Except`, and the `HashMap` groupings become association lists in
first-insertion order (the per-key contents are the code point being
verified; only iteration order differs, which is unspecified in the source).

Code snippet strings are carried in the normalized form the source computes
from its `quote!(...).to_string()` output (whitespace removed around `.` and
`(`), since every predicate of the source consults only that normalized text.
-/

namespace Inkwell

/-! ## String helpers

`hasSub h n` models Rust `h.contains(n)` : the character list of `n` occurs
contiguously inside the character list of `h`. -/

def listHasSub (pat : List Char) : List Char → Bool
  | [] => pat.isEmpty
  | c :: rest => pat.isPrefixOf (c :: rest) || listHasSub pat rest

def strContains (h n : String) : Bool :=
  listHasSub n.data h.data

/-- Models Rust `s.matches(".get(").count()` : the number of disjoint,
leftmost occurrences of `".get("` in `s`. After a match the whole pattern is
consumed (the head char plus 4 skipped chars), so matches never overlap; the
skip counter keeps the recursion structural. -/
def countGetGo : Nat → List Char → Nat
  | _, [] => 0
  | skip + 1, _ :: rest => countGetGo skip rest
  | 0, c :: rest =>
    if (".get(".data).isPrefixOf (c :: rest) then 1 + countGetGo 4 rest
    else countGetGo 0 rest

def strCountGet (s : String) : Nat := countGetGo 0 s.data

/-! ## Data model (`cli/src/types.rs`) -/

/-- `types.rs` `Operation` : one detected expensive operation. -/
structure Operation where
  line : Nat
  column : Nat
  code : String
  operation : String
  entity : String
  ink : Nat
  percentage : Rat
  category : String
  severity : String
deriving DecidableEq, Repr

/-- `types.rs` `Hotspot`. -/
structure Hotspot where
  line : Nat
  ink : Nat
  operation : String
  rank : Nat
deriving DecidableEq, Repr

/-- `types.rs` `CategoryStats`. -/
structure CategoryStats where
  count : Nat
  total_ink : Nat
  percentage : Rat
  avg_per_op : Nat
deriving DecidableEq, Repr

/-- `types.rs` `Optimization`. -/
structure Optimization where
  id : String
  line : Nat
  severity : String
  title : String
  description : String
  current_code : String
  suggested_code : String
  estimated_savings_ink : Nat
  estimated_savings_percentage : Rat
  confidence : String
deriving DecidableEq, Repr

/-- `types.rs` `DryNibBug`. -/
structure DryNibBug where
  line : Nat
  operation : String
  category : String
  ink_charged_estimate : Nat
  actual_return_size : Nat
  buffer_allocated : Nat
  expected_fair_cost : Nat
  overcharge_estimate : Nat
  severity : String
  mitigation : String
deriving DecidableEq, Repr

/-! ## Cost model (`analyzer.rs` `ContractVisitor::estimate_ink_cost`) -/

/-- `analyzer.rs` lines 619-646: hard-coded ink cost estimates per category,
with per-subtype constants for `evm_context` operations. -/
def estimate_ink_cost (operation category : String) : Nat :=
  if category = "storage_read" then 1200000
  else if category = "storage_write" then
    (if strContains operation "embedded_read" then 2400000 else 1500000)
  else if category = "evm_context" then
    (if strContains operation "msg::sender" then 300000
     else if strContains operation "msg::value" then 350000
     else if strContains operation "block::" then 250000
     else 200000)
  else if category = "event" then 350000
  else if category = "external_call" then 2500000
  else if category = "crypto" then 500000
  else if category = "assignment" then 80000
  else 50000

/-! ## Function aggregation (`analyzer.rs` `ContractVisitor::analyze_function`) -/

/-- `analyzer.rs` lines 260-270 `compute_total_ink` : sum of per-operation ink
plus a flat 2400000 penalty for every storage read or write. -/
def compute_total_ink (ops : List Operation) : Nat :=
  ops.foldl
    (fun total op =>
      total + op.ink
        + (if op.category = "storage_read" ∨ op.category = "storage_write"
           then 2400000 else 0))
    0

/-- Number of operations carrying the storage penalty in `compute_total_ink`. -/
def storage_op_count (ops : List Operation) : Nat :=
  ops.countP
    (fun op => op.category = "storage_read" ∨ op.category = "storage_write")

/-- `analyzer.rs` lines 211-217: second phase of the normalization, writing
`ink / total * 100` (or 0 when the total is 0) into each operation. -/
def fill_percentages (total : Nat) (ops : List Operation) : List Operation :=
  ops.map fun op =>
    { op with
      percentage := if 0 < total then (op.ink : Rat) / (total : Rat) * 100 else 0 }

def sum_percentages (ops : List Operation) : Rat :=
  (ops.map (·.percentage)).sum

/-! ### Association-list grouping

The source groups with `HashMap` (`entry().or_default().push(...)`); the model
uses an association list keyed in first-insertion order. Only iteration order
differs, and the source never relies on it. -/

def insertAppend (m : List (String × List Nat)) (k : String) (v : Nat) :
    List (String × List Nat) :=
  match m with
  | [] => [(k, [v])]
  | (k', vs) :: rest =>
    if k' = k then (k', vs ++ [v]) :: rest else (k', vs) :: insertAppend rest k v

def containsKey (m : List (String × List Nat)) (k : String) : Bool :=
  m.any (fun p => p.1 = k)

/-- `analyzer.rs` lines 735-744: group the lines of storage reads by resolved
entity, skipping the `"unknown"` sentinel. -/
def read_lines_map (operations : List Operation) : List (String × List Nat) :=
  operations.foldl
    (fun m op =>
      if op.category = "storage_read" ∧ op.entity ≠ "unknown"
      then insertAppend m op.entity op.line else m)
    []

/-- The read lines attributed to entity `e` by `read_lines_map`. -/
def read_lines_of (operations : List Operation) (e : String) : List Nat :=
  (operations.filter
    (fun op => op.category = "storage_read" ∧ op.entity = e)).map (·.line)

/-- Rust `Vec::dedup` on an already sorted vector: drop adjacent duplicates. -/
def dedupAdj : List Nat → List Nat
  | [] => []
  | [a] => [a]
  | a :: b :: rest =>
    if a = b then dedupAdj (b :: rest) else a :: dedupAdj (b :: rest)

/-- The cache-suggestion record built in `analyzer.rs` lines 755-774 for one
entity and its (unsorted, possibly repeated) read lines. The two display
strings interpolate numbers with Rust format machinery (`{:?}`, `{:.1}`); the
model keeps their shape without reproducing float formatting. -/
def mkCacheOptimization (var : String) (lines : List Nat) : Optimization :=
  let unique_lines := dedupAdj (lines.mergeSort (fun a b => a ≤ b))
  let read_count := unique_lines.length
  { id := "cache_" ++ var
    line := unique_lines.headD 0
    severity := "medium"
    title := "Cache repeated storage read: self." ++ var
    description :=
      "Field " ++ var ++ " read " ++ toString read_count
        ++ " times; cache to save ink"
    current_code := "// Reads at lines: " ++ toString unique_lines
    suggested_code :=
      "let cached_" ++ var ++ " = self." ++ var ++ ".get(...);\n// Use cached_"
        ++ var ++ " instead"
    estimated_savings_ink := 13200000 * (read_count - 1)
    estimated_savings_percentage := 92
    confidence := "high" }

/-- `analyzer.rs` lines 747-776: the body of the `for (var, lines)` loop —
entities with more than two storage-read operations and a nonempty name yield
one cache record each. -/
def cacheRule (p : String × List Nat) : Option Optimization :=
  if 2 < p.2.length ∧ p.1 ≠ "" then some (mkCacheOptimization p.1 p.2)
  else none

/-- `analyzer.rs` lines 732-779 `detect_optimizations` : the only rule is the
repeated-read cache suggestion. -/
def detect_optimizations (operations : List Operation) : List Optimization :=
  (read_lines_map operations).filterMap cacheRule

/-- `analyzer.rs` lines 274-322 `detect_dry_nib_bugs` : a single per-operation
pass over storage reads; suspicion from nested `.get(`, the literal
`balances` / `allowance` snippets, or ink at least 3000000. `saturating_sub`
is `Nat` subtraction. The final `sort_by_key(line)` is a stable sort. -/
def dryNibRule (op : Operation) : Option DryNibBug :=
  if op.category ≠ "storage_read" then none
  else
    let get_count := strCountGet op.code
    let suspected : Bool :=
      2 ≤ get_count ∨ strContains op.code "balances"
        ∨ strContains op.code "allowance" ∨ 3000000 ≤ op.ink
    if suspected then
      let charged : Nat := if 2 ≤ get_count then 4800000 else 2400000
      let over := charged - 1200000
      some
        { line := op.line
          operation := op.operation
          category := "storage_read"
          ink_charged_estimate := charged
          actual_return_size := 32
          buffer_allocated := 64
          expected_fair_cost := 1200000
          overcharge_estimate := over
          severity := if 2000000 < over then "high" else "medium"
          mitigation :=
            if 2 ≤ get_count then "Cache outer mapping result before inner .get()"
            else "Cache storage value in local variable" }
    else none

def detect_dry_nib_bugs (ops : List Operation) : List DryNibBug :=
  let bugs := ops.filterMap dryNibRule
  bugs.mergeSort (fun a b => a.line ≤ b.line)

/-- `analyzer.rs` lines 694-729 `calculate_categories` : per-category count,
ink sum, average (integer division, 0 when the count is 0) and share of the
plain (unpenalized) ink sum. -/
def calculate_categories (operations : List Operation) :
    List (String × CategoryStats) :=
  let groups := operations.foldl (fun m op => insertAppend m op.category op.ink) []
  let total_ink := (operations.map (·.ink)).sum
  groups.map fun p =>
    let total := p.2.sum
    let count := p.2.length
    (p.1,
      { count := count
        total_ink := total
        percentage :=
          if 0 < total_ink then (total : Rat) / (total_ink : Rat) * 100 else 0
        avg_per_op := if 0 < count then total / count else 0 })

/-- `analyzer.rs` lines 225-235: the unsorted hotspot candidates — operations
with ink above 1000000, in encounter order, provisionally ranked by encounter
index + 1. -/
def hotspot_candidates (operations : List Operation) : List Hotspot :=
  (operations.filter (fun op => 1000000 < op.ink)).enum.map fun p =>
    { line := p.2.line, ink := p.2.ink, operation := p.2.operation
      rank := p.1 + 1 }

/-- `analyzer.rs` lines 225-240: stable-sort the candidates by descending ink
(`sort_by(|a, b| b.ink.cmp(&a.ink))`), then overwrite ranks with 1..N. -/
def compute_hotspots (operations : List Operation) : List Hotspot :=
  let sorted := (hotspot_candidates operations).mergeSort
    (fun a b => b.ink ≤ a.ink)
  sorted.enum.map fun p => { p.2 with rank := p.1 + 1 }

/-- `types.rs` `FunctionAnalysis`; `categories` keeps association-list order. -/
structure FunctionAnalysis where
  name : String
  signature : String
  start_line : Nat
  total_ink : Nat
  gas_equivalent : Nat
  operations : List Operation
  categories : List (String × CategoryStats)
  optimizations : List Optimization
  hotspots : List Hotspot
  dry_nib_bugs : List DryNibBug
deriving DecidableEq, Repr

/-- `analyzer.rs` lines 176-256 `analyze_function`, after the statement walk:
the aggregation applied to the operation list collected from the body. The
skip rules and the statement classifier feeding `ops0` live in the driver
model below. -/
def analyze_function (name signature : String) (start_line : Nat)
    (ops0 : List Operation) : FunctionAnalysis :=
  let total_ink := compute_total_ink ops0
  let operations := fill_percentages total_ink ops0
  { name := name
    signature := signature
    start_line := start_line
    total_ink := total_ink
    gas_equivalent := total_ink / 10000
    operations := operations
    categories := calculate_categories operations
    optimizations := detect_optimizations operations
    hotspots := compute_hotspots operations
    dry_nib_bugs := detect_dry_nib_bugs operations }

/-! ## Entity extraction (`analyzer.rs` `extract_storage_variable`) -/

/-- `[a-zA-Z_]` : first character of the capture group. -/
def isIdentStart (c : Char) : Bool := c.isLower || c.isUpper || c = '_'

/-- `[a-zA-Z0-9_]` : later characters of the capture group. -/
def isIdentChar (c : Char) : Bool := isIdentStart c || c.isDigit

/-- At a fixed position, match the regex tail `([a-zA-Z_][a-zA-Z0-9_]*)\.` and
return the capture. The character class excludes `.`, so the greedy star is
the maximal identifier run. -/
def matchIdentDot (l : List Char) : Option (List Char) :=
  match l with
  | [] => none
  | c :: cs =>
    if isIdentStart c then
      match cs.dropWhile isIdentChar with
      | '.' :: _ => some (c :: cs.takeWhile isIdentChar)
      | _ => none
    else none

/-- Leftmost match of `self\.([a-zA-Z_][a-zA-Z0-9_]*)\.` : try every start
position left to right, as the regex engine does. -/
def firstSelfCapture : List Char → Option (List Char)
  | [] => none
  | c :: rest =>
    if ("self.".data).isPrefixOf (c :: rest) then
      match matchIdentDot ((c :: rest).drop 5) with
      | some ident => some ident
      | none => firstSelfCapture rest
    else firstSelfCapture rest

/-- `analyzer.rs` lines 956-957: the reserved-word blocklist. -/
def reservedWords : List String :=
  ["mut", "ref", "as", "let", "where", "self", "get", "insert"]

/-- Rust `code.trim()` : drop leading and trailing whitespace (the snippets
are ASCII, where Rust and Lean whitespace agree). -/
def trimChars (l : List Char) : List Char :=
  ((l.dropWhile Char.isWhitespace).reverse.dropWhile Char.isWhitespace).reverse

/-- The normalization in `analyzer.rs` line 950:
`code.trim().replace(" ", "")` — replacing every single space by the empty
string is exactly filtering spaces out. -/
def normalizeEntityCode (code : String) : List Char :=
  (trimChars code.data).filter (fun c => c ≠ ' ')

/-- `analyzer.rs` lines 949-962 `extract_storage_variable` : capture the field
name after the first `self.` segment; reserved words yield `"unknown"`. -/
def extract_storage_variable (code : String) : String :=
  match firstSelfCapture (normalizeEntityCode code) with
  | some ident =>
    let name : String := ⟨ident⟩
    if reservedWords.contains name then "unknown" else name
  | none => "unknown"

/-! ## C9 : reserved words are rejected by entity extraction -/

/-- C9: whenever the name captured after the first self-rooted access segment
is one of the blocklisted reserved words, `extract_storage_variable` returns
the sentinel `"unknown"`. -/
theorem C9_reserved_word_rejected (code : String) (name : String)
    (hcap : firstSelfCapture (normalizeEntityCode code) = some name.data)
    (hres : name ∈ reservedWords) :
    extract_storage_variable code = "unknown" := by
  unfold extract_storage_variable
  rw [hcap]
  have hc : reservedWords.contains name = true := by simpa using hres
  have hname : (⟨name.data⟩ : String) = name := rfl
  simp only [hname, hc, if_true]

/-- C9 witness: the snippet `"self.get.insert(x)"` uses only blocklisted
tokens; the capture is `"get"`, which is blocklisted, and extraction returns
`"unknown"`. -/
theorem C9_witness :
    firstSelfCapture (normalizeEntityCode "self.get.insert(x)") = some "get".data
    ∧ "get" ∈ reservedWords
    ∧ extract_storage_variable "self.get.insert(x)" = "unknown" :=
  ⟨by decide, by decide,
    C9_reserved_word_rejected "self.get.insert(x)" "get" (by decide) (by decide)⟩

/-! ## C3 : there is no redundant-read-in-write optimization rule -/

/-- A storage-write operation whose name carries the `embedded_read` flag; its
ink is the cost model value for that flag, 2400000, above the 1500000 base. -/
def upsertWriteOp : Operation :=
  { line := 42
    column := 0
    code := "self.balances.insert(owner,self.balances.get(owner)+1)"
    operation := "map::upsert (embedded_read)"
    entity := "balances"
    ink := 2400000
    percentage := 0
    category := "storage_write"
    severity := "high" }

/-- C3 counterexample: a storage-write operation flagged `embedded_read` and
costed at the 2400000 embedded-read rate yields no optimization at all —
`detect_optimizations` has no redundant-read-in-write rule — contradicting the
claim that exactly one such optimization is emitted. -/
theorem C3_counterexample :
    strContains upsertWriteOp.operation "embedded_read" = true
    ∧ estimate_ink_cost upsertWriteOp.operation upsertWriteOp.category = 2400000
    ∧ detect_optimizations [upsertWriteOp] = [] := by
  refine ⟨by decide, by decide, ?_⟩
  decide

/-- C3 amended: the optimization detector ignores storage-write operations
entirely; its only rule groups storage-read operations by entity, so an
operation list with no storage reads — in particular one consisting of
embedded-read writes — yields no optimizations. -/
theorem C3_amended (ops : List Operation)
    (h : ∀ op ∈ ops, op.category ≠ "storage_read") :
    detect_optimizations ops = [] := by
  have hmap : read_lines_map ops = [] := by
    unfold read_lines_map
    induction ops with
    | nil => rfl
    | cons op rest ih =>
      have hop := h op (by simp)
      simp only [List.foldl_cons]
      rw [if_neg (by simp [hop])]
      exact ih (fun o ho => h o (by simp [ho]))
  unfold detect_optimizations
  rw [hmap]
  rfl

/-- C3 witness: the amended claim applied to the embedded-read write. -/
theorem C3_amended_witness : detect_optimizations [upsertWriteOp] = [] :=
  C3_amended [upsertWriteOp] (by decide)

/-- A direct storage read of `self.total_supply` as the classifier costs it. -/
def totalSupplyReadOp : Operation :=
  { line := 3
    column := 0
    code := "self.total_supply"
    operation := "storage::load"
    entity := "total_supply"
    ink := 1200000
    percentage := 0
    category := "storage_read"
    severity := "high" }

/-! ## C2 : repeated reads — association-list lemmas -/

/-- First-match lookup in the association list (mirrors the unique-key map). -/
def lookupA (m : List (String × List Nat)) (k : String) : List Nat :=
  match m with
  | [] => []
  | (k', v) :: rest => if k' = k then v else lookupA rest k

def keysOf (m : List (String × List Nat)) : List String := m.map (·.1)

theorem lookupA_insertAppend_same (m : List (String × List Nat)) (k : String) (v : Nat) :
    lookupA (insertAppend m k v) k = lookupA m k ++ [v] := by
  induction m with
  | nil => simp [insertAppend, lookupA]
  | cons p rest ih =>
    obtain ⟨k', vs⟩ := p
    by_cases h : k' = k
    · subst h
      simp [insertAppend, lookupA]
    · simp [insertAppend, lookupA, h, ih]

theorem lookupA_insertAppend_other (m : List (String × List Nat)) (k : String)
    (v : Nat) (e : String) (h : k ≠ e) :
    lookupA (insertAppend m k v) e = lookupA m e := by
  induction m with
  | nil => simp [insertAppend, lookupA, h]
  | cons p rest ih =>
    obtain ⟨k', vs⟩ := p
    by_cases hk : k' = k
    · subst hk
      simp [insertAppend, lookupA, h]
    · by_cases he : k' = e
      · subst he
        simp [insertAppend, lookupA, hk]
      · simp [insertAppend, lookupA, hk, he, ih]

theorem read_lines_fold (e : String) (he : e ≠ "unknown") (ops : List Operation) :
    ∀ m : List (String × List Nat),
    lookupA
      (ops.foldl
        (fun m op =>
          if op.category = "storage_read" ∧ op.entity ≠ "unknown"
          then insertAppend m op.entity op.line else m)
        m) e
      = lookupA m e ++ read_lines_of ops e := by
  induction ops with
  | nil => intro m; simp [read_lines_of]
  | cons op rest ih =>
    intro m
    simp only [List.foldl_cons]
    by_cases hcat : op.category = "storage_read"
    · by_cases hent : op.entity = e
      · have hu : op.entity ≠ "unknown" := by rw [hent]; exact he
        rw [if_pos ⟨hcat, hu⟩, ih, hent, lookupA_insertAppend_same]
        simp [read_lines_of, List.filter_cons, hcat, hent]
      · by_cases hu : op.entity = "unknown"
        · rw [if_neg (by simp [hu]), ih]
          simp [read_lines_of, List.filter_cons, hent]
        · rw [if_pos ⟨hcat, hu⟩, ih, lookupA_insertAppend_other _ _ _ _ hent]
          simp [read_lines_of, List.filter_cons, hent]
    · rw [if_neg (by simp [hcat]), ih]
      simp [read_lines_of, List.filter_cons, hcat]

theorem containsKey_iff (m : List (String × List Nat)) (k : String) :
    containsKey m k = true ↔ k ∈ keysOf m := by
  induction m with
  | nil => simp [containsKey, keysOf]
  | cons p rest ih =>
    obtain ⟨k', vs⟩ := p
    have hkeys : keysOf ((k', vs) :: rest) = k' :: keysOf rest := rfl
    rw [hkeys]
    simp only [containsKey, List.any_cons, Bool.or_eq_true, decide_eq_true_eq,
      List.mem_cons] at ih ⊢
    constructor
    · rintro (h | h)
      · exact Or.inl h.symm
      · exact Or.inr (ih.mp h)
    · rintro (h | h)
      · exact Or.inl h.symm
      · exact Or.inr (ih.mpr h)

theorem keysOf_insertAppend (m : List (String × List Nat)) (k : String) (v : Nat) :
    keysOf (insertAppend m k v)
      = if containsKey m k then keysOf m else keysOf m ++ [k] := by
  induction m with
  | nil => simp [insertAppend, keysOf, containsKey]
  | cons p rest ih =>
    obtain ⟨k', vs⟩ := p
    by_cases h : k' = k
    · subst h
      have hc : containsKey ((k', vs) :: rest) k' = true := by
        simp [containsKey]
      rw [if_pos hc]
      simp [insertAppend, keysOf]
    · have hins : insertAppend ((k', vs) :: rest) k v
          = (k', vs) :: insertAppend rest k v := by
        simp [insertAppend, h]
      have hc : containsKey ((k', vs) :: rest) k = containsKey rest k := by
        simp [containsKey, h]
      have hk : keysOf ((k', vs) :: insertAppend rest k v)
          = k' :: keysOf (insertAppend rest k v) := rfl
      rw [hins, hk, ih, hc]
      by_cases hck : containsKey rest k = true
      · rw [if_pos hck, if_pos hck]
        rfl
      · rw [if_neg hck, if_neg hck]
        rfl

theorem keys_nodup_fold (ops : List Operation) :
    ∀ m : List (String × List Nat), (keysOf m).Nodup →
    (keysOf
      (ops.foldl
        (fun m op =>
          if op.category = "storage_read" ∧ op.entity ≠ "unknown"
          then insertAppend m op.entity op.line else m)
        m)).Nodup := by
  induction ops with
  | nil => intro m hm; simpa using hm
  | cons op rest ih =>
    intro m hm
    simp only [List.foldl_cons]
    by_cases hc : op.category = "storage_read" ∧ op.entity ≠ "unknown"
    · rw [if_pos hc]
      apply ih
      rw [keysOf_insertAppend]
      by_cases hk : containsKey m op.entity
      · simpa [hk] using hm
      · rw [if_neg (by simp [hk])]
        have : op.entity ∉ keysOf m := fun hmem =>
          hk ((containsKey_iff m op.entity).mpr hmem)
        simp [List.nodup_append, hm, this]
    · rw [if_neg hc]
      exact ih m hm

theorem read_lines_map_keys_nodup (ops : List Operation) :
    (keysOf (read_lines_map ops)).Nodup := by
  unfold read_lines_map
  exact keys_nodup_fold ops [] (by simp [keysOf])

theorem lookupA_ne_nil (m : List (String × List Nat)) (e : String)
    (h : lookupA m e ≠ []) : e ∈ keysOf m := by
  induction m with
  | nil => simp [lookupA] at h
  | cons p rest ih =>
    obtain ⟨k, vs⟩ := p
    by_cases hk : k = e
    · subst hk; simp [keysOf]
    · simp only [lookupA, if_neg hk] at h
      have hmem := ih h
      have hkeys : keysOf ((k, vs) :: rest) = k :: keysOf rest := rfl
      rw [hkeys]
      exact List.mem_cons_of_mem _ hmem

theorem assoc_split (m : List (String × List Nat)) (e : String)
    (hmem : e ∈ keysOf m) (hnd : (keysOf m).Nodup) :
    ∃ m₁ v m₂, m = m₁ ++ (e, v) :: m₂ ∧ e ∉ keysOf m₁ ∧ e ∉ keysOf m₂
      ∧ lookupA m e = v := by
  induction m with
  | nil => simp [keysOf] at hmem
  | cons p rest ih =>
    obtain ⟨k, vs⟩ := p
    by_cases h : k = e
    · subst h
      have hk : k ∉ keysOf rest := by
        have := hnd
        simp only [keysOf, List.map_cons, List.nodup_cons] at this
        exact this.1
      exact ⟨[], vs, rest, by simp, by simp [keysOf], hk, by simp [lookupA]⟩
    · have hmem' : e ∈ keysOf rest := by
        simp only [keysOf, List.map_cons, List.mem_cons] at hmem
        rcases hmem with h' | h'
        · exact absurd h'.symm h
        · exact h'
      have hnd' : (keysOf rest).Nodup := by
        simp only [keysOf, List.map_cons, List.nodup_cons] at hnd
        exact hnd.2
      obtain ⟨m₁, v, m₂, hsplit, h1, h2, hl⟩ := ih hmem' hnd'
      refine ⟨(k, vs) :: m₁, v, m₂, by simp [hsplit], ?_, h2, ?_⟩
      · simp only [keysOf, List.map_cons, List.mem_cons] at h1 ⊢
        rintro (h' | h')
        · exact h h'.symm
        · exact h1 h'
      · simp [lookupA, h, hl]

theorem string_append_left_cancel {a b c : String} (h : a ++ b = a ++ c) :
    b = c := by
  have hd := congrArg String.data h
  simp only [String.data_append] at hd
  have hbc := List.append_cancel_left hd
  cases b
  cases c
  exact congrArg String.mk hbc

theorem filter_cache_eq_nil (e : String) (m : List (String × List Nat))
    (h : e ∉ keysOf m) :
    (m.filterMap cacheRule).filter (fun o => o.id = "cache_" ++ e) = [] := by
  rw [List.filter_eq_nil_iff]
  intro o ho
  rw [List.mem_filterMap] at ho
  obtain ⟨p, hp, hcr⟩ := ho
  unfold cacheRule at hcr
  split at hcr
  case isTrue hcond =>
    have ho' : o = mkCacheOptimization p.1 p.2 := by
      injection hcr with h'; exact h'.symm
    have hid : o.id = "cache_" ++ p.1 := by rw [ho']; rfl
    have hpk : p.1 ∈ keysOf m := by
      simp only [keysOf, List.mem_map]
      exact ⟨p, hp, rfl⟩
    have hpe : p.1 ≠ e := fun hh => h (hh ▸ hpk)
    simp only [hid, decide_eq_true_eq]
    intro hcc
    exact hpe (string_append_left_cancel hcc)
  case isFalse => exact absurd hcr (by simp)

theorem dedupAdj_headD (l : List Nat) (d : Nat) :
    (dedupAdj l).headD d = l.headD d := by
  induction l with
  | nil => rfl
  | cons a rest ih =>
    cases rest with
    | nil => rfl
    | cons b rest' =>
      by_cases h : a = b
      · subst h
        have he : dedupAdj (a :: a :: rest') = dedupAdj (a :: rest') := by
          simp [dedupAdj]
        rw [he, ih]
        rfl
      · have he : dedupAdj (a :: b :: rest') = a :: dedupAdj (b :: rest') := by
          simp [dedupAdj, h]
        rw [he]
        rfl

theorem sorted_headD_le {l : List Nat} (hs : l.Pairwise (fun a b => a ≤ b))
    {x : Nat} (hx : x ∈ l) : l.headD 0 ≤ x := by
  cases l with
  | nil => simp at hx
  | cons a t =>
    rcases List.mem_cons.mp hx with h | h
    · subst h; simp
    · exact (List.pairwise_cons.mp hs).1 x h

/-- C2 amended: with at least three storage-read operations of one resolved
entity (not the `"unknown"` sentinel, nonempty), the repeated-read pattern is
reported by the optimization detector, not the dry-nib detector: exactly one
cache optimization is emitted for that entity, with estimated saving
13200000 × (number of distinct read lines − 1) ink, severity `"medium"`,
confidence `"high"`, anchored at the smallest read line, suggesting a local
cached binding. -/
theorem C2_amended (ops : List Operation) (e : String)
    (h3 : 3 ≤ (read_lines_of ops e).length) (hu : e ≠ "unknown") (hne : e ≠ "") :
    (detect_optimizations ops).filter (fun o => o.id = "cache_" ++ e)
        = [mkCacheOptimization e (read_lines_of ops e)]
    ∧ (mkCacheOptimization e (read_lines_of ops e)).estimated_savings_ink
        = 13200000
          * ((dedupAdj ((read_lines_of ops e).mergeSort (fun a b => a ≤ b))).length - 1)
    ∧ (mkCacheOptimization e (read_lines_of ops e)).severity = "medium"
    ∧ (mkCacheOptimization e (read_lines_of ops e)).confidence = "high"
    ∧ ∀ l ∈ read_lines_of ops e, (mkCacheOptimization e (read_lines_of ops e)).line ≤ l := by
  have hlook : lookupA (read_lines_map ops) e = read_lines_of ops e := by
    unfold read_lines_map
    rw [read_lines_fold e hu ops []]
    simp [lookupA]
  have hnil : read_lines_of ops e ≠ [] := by
    intro h
    rw [h] at h3
    simp at h3
  have hmem : e ∈ keysOf (read_lines_map ops) :=
    lookupA_ne_nil _ _ (by rw [hlook]; exact hnil)
  obtain ⟨m₁, v, m₂, hsplit, h1, h2, hl⟩ :=
    assoc_split _ _ hmem (read_lines_map_keys_nodup ops)
  have hv : v = read_lines_of ops e := by rw [← hlook, hl]
  subst hv
  refine ⟨?_, rfl, rfl, rfl, ?_⟩
  · unfold detect_optimizations
    rw [hsplit, List.filterMap_append, List.filter_append]
    have hge : cacheRule (e, read_lines_of ops e)
        = some (mkCacheOptimization e (read_lines_of ops e)) := by
      unfold cacheRule
      exact if_pos ⟨show 2 < (read_lines_of ops e).length by omega, hne⟩
    rw [List.filterMap_cons, hge]
    rw [filter_cache_eq_nil e m₁ h1, List.filter_cons]
    have hid : (mkCacheOptimization e (read_lines_of ops e)).id = "cache_" ++ e := rfl
    rw [filter_cache_eq_nil e m₂ h2]
    simp [hid]
  · intro l hlmem
    have htrans : ∀ a b c : Nat,
        (fun a b : Nat => decide (a ≤ b)) a b = true →
        (fun a b : Nat => decide (a ≤ b)) b c = true →
        (fun a b : Nat => decide (a ≤ b)) a c = true := by
      intro a b c hab hbc
      simp only [decide_eq_true_eq] at *
      omega
    have htotal : ∀ a b : Nat,
        ((fun a b : Nat => decide (a ≤ b)) a b
          || (fun a b : Nat => decide (a ≤ b)) b a) = true := by
      intro a b
      simp only [Bool.or_eq_true, decide_eq_true_eq]
      omega
    have hsorted := List.sorted_mergeSort htrans htotal (read_lines_of ops e)
    have hsorted' : ((read_lines_of ops e).mergeSort
        (fun a b : Nat => decide (a ≤ b))).Pairwise (fun a b => a ≤ b) :=
      hsorted.imp (by intro a b h; simpa using h)
    have hmem' : l ∈ (read_lines_of ops e).mergeSort (fun a b : Nat => decide (a ≤ b)) :=
      List.mem_mergeSort.mpr hlmem
    have hline : (mkCacheOptimization e (read_lines_of ops e)).line
        = (dedupAdj ((read_lines_of ops e).mergeSort
            (fun a b : Nat => decide (a ≤ b)))).headD 0 := rfl
    rw [hline, dedupAdj_headD]
    exact sorted_headD_le hsorted' hmem'

/-- Three storage reads of `self.total_supply` on distinct lines: no `.get(`
nesting, no `balances` / `allowance` snippet, ink below 3000000. -/
def c2ReadOps : List Operation :=
  [totalSupplyReadOp, { totalSupplyReadOp with line := 5 },
    { totalSupplyReadOp with line := 7 }]

/-- C2 counterexample: an operation list with three storage reads of the same
entity on which the dry-nib detector emits no bug record at all — the
repeated-read grouping is not part of `detect_dry_nib_bugs` — contradicting
the claim that it emits exactly one repeated-read record. -/
theorem C2_counterexample :
    c2ReadOps.countP
        (fun op => op.category = "storage_read" ∧ op.entity = "total_supply") = 3
    ∧ detect_dry_nib_bugs c2ReadOps = [] := by
  refine ⟨by decide, ?_⟩
  have h : c2ReadOps.filterMap dryNibRule = [] := by decide
  unfold detect_dry_nib_bugs
  rw [h]
  exact List.mergeSort_nil

/-- Three reads of `self.balances` at lines 5, 6 and 7. -/
def balancesReadOp (l : Nat) : Operation :=
  { line := l
    column := 0
    code := "self.balances.get(owner)"
    operation := "map::get"
    entity := "balances"
    ink := 1200000
    percentage := 0
    category := "storage_read"
    severity := "high" }

def c2WitnessOps : List Operation :=
  [balancesReadOp 5, balancesReadOp 6, balancesReadOp 7]

/-- C2 witness: the amended claim at three reads of `balances`. -/
theorem C2_amended_witness :
    (detect_optimizations c2WitnessOps).filter
        (fun o => o.id = "cache_" ++ "balances")
      = [mkCacheOptimization "balances" (read_lines_of c2WitnessOps "balances")] :=
  (C2_amended c2WitnessOps "balances" (by decide) (by decide) (by decide)).1

/-! ## C1 / C10 : percentage normalization against the penalized total -/

theorem compute_total_ink_aux (ops : List Operation) (acc : Nat) :
    ops.foldl
      (fun total op =>
        total + op.ink
          + (if op.category = "storage_read" ∨ op.category = "storage_write"
             then 2400000 else 0))
      acc
    = acc + (ops.map (·.ink)).sum + 2400000 * storage_op_count ops := by
  induction ops generalizing acc with
  | nil => simp [storage_op_count]
  | cons op rest ih =>
    simp only [List.foldl_cons, List.map_cons, List.sum_cons, storage_op_count,
      List.countP_cons] at *
    rw [ih]
    by_cases h : op.category = "storage_read" ∨ op.category = "storage_write"
    · simp only [h, if_true, decide_eq_true_eq, if_pos h]
      ring
    · simp only [h, if_false, decide_eq_true_eq, if_neg h]
      ring

/-- `compute_total_ink` in closed form: the plain ink sum plus 2400000 for
every storage read or write. -/
theorem compute_total_ink_eq (ops : List Operation) :
    compute_total_ink ops
      = (ops.map (·.ink)).sum + 2400000 * storage_op_count ops := by
  unfold compute_total_ink
  rw [compute_total_ink_aux]
  omega

theorem sum_percentages_fill (t : Nat) (ht : 0 < t) (ops : List Operation) :
    sum_percentages (fill_percentages t ops)
      = (ops.map (fun op => (op.ink : Rat))).sum / (t : Rat) * 100 := by
  unfold sum_percentages fill_percentages
  induction ops with
  | nil => simp
  | cons op rest ih =>
    simp only [List.map_cons, List.sum_cons, List.map_map] at *
    rw [ih, if_pos ht]
    ring

theorem rat_ink_sum_eq (ops : List Operation) :
    (ops.map (fun op => (op.ink : Rat))).sum = (((ops.map (·.ink)).sum : Nat) : Rat) := by
  rw [Nat.cast_list_sum, List.map_map]
  rfl

/-- C1 counterexample: a function with one detected operation (a storage read)
has positive total ink, yet its percentages sum to 100/3, not 100 — the
storage penalty inflates the denominator — so the sum misses 100 by far more
than any floating-point tolerance. -/
theorem C1_counterexample :
    (analyze_function "total_supply" "pub fn total_supply (& self) -> U256" 3
        [totalSupplyReadOp]).operations ≠ []
    ∧ 0 < (analyze_function "total_supply" "pub fn total_supply (& self) -> U256" 3
        [totalSupplyReadOp]).total_ink
    ∧ sum_percentages
        ((analyze_function "total_supply" "pub fn total_supply (& self) -> U256" 3
          [totalSupplyReadOp]).operations) = 100 / 3
    ∧ ¬ |sum_percentages
          ((analyze_function "total_supply" "pub fn total_supply (& self) -> U256" 3
            [totalSupplyReadOp]).operations) - 100| ≤ 1 := by
  have hops : (analyze_function "total_supply" "pub fn total_supply (& self) -> U256" 3
      [totalSupplyReadOp]).operations
      = fill_percentages (compute_total_ink [totalSupplyReadOp]) [totalSupplyReadOp] := rfl
  have ht : compute_total_ink [totalSupplyReadOp] = 3600000 := by decide
  have hs := sum_percentages_fill 3600000 (by norm_num) [totalSupplyReadOp]
  have hsum : sum_percentages
      ((analyze_function "total_supply" "pub fn total_supply (& self) -> U256" 3
        [totalSupplyReadOp]).operations) = 100 / 3 := by
    rw [hops, ht, hs]
    simp only [List.map_cons, List.map_nil, List.sum_cons, List.sum_nil, totalSupplyReadOp]
    norm_num
  refine ⟨by decide, by decide, hsum, ?_⟩
  rw [hsum]
  rw [show (100 : Rat) / 3 - 100 = -(200 / 3) by norm_num, abs_neg,
    abs_of_nonneg (by norm_num)]
  norm_num

/-- C1 amended: with positive total ink, the per-operation percentages sum to
100 exactly when the function has no storage read/write operations; when at
least one storage operation is present the 2400000-per-operation penalty
inflates the total and the sum falls strictly below 100. -/
theorem C1_amended (name sig : String) (sl : Nat) (ops : List Operation)
    (hpos : 0 < compute_total_ink ops) :
    ((∀ op ∈ ops,
        ¬(op.category = "storage_read" ∨ op.category = "storage_write")) →
      sum_percentages ((analyze_function name sig sl ops).operations) = 100)
    ∧ ((∃ op ∈ ops,
        op.category = "storage_read" ∨ op.category = "storage_write") →
      sum_percentages ((analyze_function name sig sl ops).operations) < 100) := by
  have hops : (analyze_function name sig sl ops).operations
      = fill_percentages (compute_total_ink ops) ops := rfl
  have hsum := sum_percentages_fill (compute_total_ink ops) hpos ops
  have htr : (0 : Rat) < (compute_total_ink ops : Rat) := by
    exact_mod_cast hpos
  constructor
  · intro hnone
    have hcount : storage_op_count ops = 0 := by
      unfold storage_op_count
      rw [List.countP_eq_zero]
      intro op hop
      simpa using hnone op hop
    have htot : compute_total_ink ops = (ops.map (·.ink)).sum := by
      rw [compute_total_ink_eq, hcount]
      omega
    rw [hops, hsum, rat_ink_sum_eq, ← htot]
    rw [div_self (ne_of_gt htr)]
    norm_num
  · intro hsome
    have hcount : 0 < storage_op_count ops := by
      unfold storage_op_count
      rw [List.countP_pos_iff]
      obtain ⟨op, hop, hprop⟩ := hsome
      exact ⟨op, hop, by simpa using hprop⟩
    have hlt : (ops.map (·.ink)).sum < compute_total_ink ops := by
      rw [compute_total_ink_eq]
      omega
    rw [hops, hsum, rat_ink_sum_eq]
    have hltr : (((ops.map (·.ink)).sum : Nat) : Rat) < (compute_total_ink ops : Rat) := by
      exact_mod_cast hlt
    have hdiv : (((ops.map (·.ink)).sum : Nat) : Rat) / (compute_total_ink ops : Rat) < 1 :=
      (div_lt_one htr).mpr hltr
    calc (((ops.map (·.ink)).sum : Nat) : Rat) / (compute_total_ink ops : Rat) * 100
        < 1 * 100 := by
          exact mul_lt_mul_of_pos_right hdiv (by norm_num)
      _ = 100 := by norm_num

/-- An `evm_context` operation as the classifier builds it for `msg::sender()`
(`build_operation` names it `evm_context`, so the cost model default 200000
applies). -/
def evmContextOp : Operation :=
  { line := 7
    column := 0
    code := "msg::sender()"
    operation := "evm_context"
    entity := "unknown"
    ink := 200000
    percentage := 0
    category := "evm_context"
    severity := "low" }

/-- C1 witness: a function whose only operation is a host-context query has
percentages summing to exactly 100. -/
theorem C1_amended_witness :
    sum_percentages
      ((analyze_function "who" "pub fn who (& self) -> Address" 7
        [evmContextOp]).operations) = 100 :=
  (C1_amended "who" "pub fn who (& self) -> Address" 7 [evmContextOp]
    (by decide)).1 (by decide)

/-- C10: the reported total ink is the plain sum of the per-operation inks
plus a fixed 2400000 penalty per storage read/write; with at least one storage
operation the total strictly exceeds the plain sum; and the stored operations
are exactly the input operations with percentages filled in against this
penalized total. -/
theorem C10_storage_penalty (name sig : String) (sl : Nat) (ops : List Operation) :
    (analyze_function name sig sl ops).total_ink
        = (ops.map (·.ink)).sum + 2400000 * storage_op_count ops
    ∧ (1 ≤ storage_op_count ops →
        (ops.map (·.ink)).sum < (analyze_function name sig sl ops).total_ink)
    ∧ (analyze_function name sig sl ops).operations
        = fill_percentages (analyze_function name sig sl ops).total_ink ops := by
  have htot : (analyze_function name sig sl ops).total_ink = compute_total_ink ops := rfl
  refine ⟨by rw [htot, compute_total_ink_eq], ?_, rfl⟩
  intro hone
  rw [htot, compute_total_ink_eq]
  omega

/-- C10 witness: with one storage read (ink 1200000), the plain sum 1200000 is
strictly below the reported total. -/
theorem C10_witness :
    (([totalSupplyReadOp].map (·.ink)).sum
      < (analyze_function "total_supply" "pub fn total_supply (& self) -> U256" 3
          [totalSupplyReadOp]).total_ink) :=
  (C10_storage_penalty "total_supply" "pub fn total_supply (& self) -> U256" 3
    [totalSupplyReadOp]).2.1 (by decide)

/-! ## C7 : hotspot ranking -/

/-- The rank-free content of a hotspot record. -/
def hsTriple (h : Hotspot) : Nat × Nat × String := (h.line, h.ink, h.operation)

/-- The hotspot-relevant content of an operation. -/
def opTriple (op : Operation) : Nat × Nat × String := (op.line, op.ink, op.operation)

theorem map_rank_overwrite {β : Type} (l : List Hotspot) (f : Hotspot → β)
    (hf : ∀ (h : Hotspot) (r : Nat), f { h with rank := r } = f h) :
    (l.enum.map fun p => { p.2 with rank := p.1 + 1 }).map f = l.map f := by
  rw [List.map_map]
  have h1 : (f ∘ fun p : Nat × Hotspot => { p.2 with rank := p.1 + 1 })
      = fun p : Nat × Hotspot => f p.2 := by
    funext p
    exact hf p.2 (p.1 + 1)
  rw [h1]
  have h2 : (fun p : Nat × Hotspot => f p.2) = f ∘ Prod.snd := rfl
  rw [h2, ← List.map_map, List.enum_map_snd]

theorem hotspot_le_trans : ∀ a b c : Hotspot,
    (fun a b : Hotspot => decide (b.ink ≤ a.ink)) a b = true →
    (fun a b : Hotspot => decide (b.ink ≤ a.ink)) b c = true →
    (fun a b : Hotspot => decide (b.ink ≤ a.ink)) a c = true := by
  intro a b c hab hbc
  simp only [decide_eq_true_eq] at *
  omega

theorem hotspot_le_total : ∀ a b : Hotspot,
    ((fun a b : Hotspot => decide (b.ink ≤ a.ink)) a b
      || (fun a b : Hotspot => decide (b.ink ≤ a.ink)) b a) = true := by
  intro a b
  simp only [Bool.or_eq_true, decide_eq_true_eq]
  omega

/-- C7: the hotspot list of an operation list holds exactly the operations
with ink above 1000000 (as a permutation of their rank-free content), sorted
in descending ink order, with ranks exactly 1..N (no gaps); ties keep
encounter order (a tied pair of candidates stays a sublist of the output);
and producing hotspots never reorders the function's operation list — the
analysis stores the in-order percentage fill of the input and derives the
hotspot list from it separately. -/
theorem C7_hotspots (name sig : String) (sl : Nat) (ops : List Operation) :
    (compute_hotspots ops).map (·.rank)
        = List.range' 1 (ops.filter (fun op => 1000000 < op.ink)).length
    ∧ (compute_hotspots ops).Pairwise (fun a b => b.ink ≤ a.ink)
    ∧ ((compute_hotspots ops).map hsTriple).Perm
        ((ops.filter (fun op => 1000000 < op.ink)).map opTriple)
    ∧ (∀ x y : Hotspot, [x, y].Sublist (hotspot_candidates ops) → x.ink = y.ink →
        [hsTriple x, hsTriple y].Sublist ((compute_hotspots ops).map hsTriple))
    ∧ (analyze_function name sig sl ops).operations
        = fill_percentages (compute_total_ink ops) ops
    ∧ (analyze_function name sig sl ops).hotspots
        = compute_hotspots (fill_percentages (compute_total_ink ops) ops) := by
  have hlen : ((hotspot_candidates ops).mergeSort
      (fun a b => decide (b.ink ≤ a.ink))).length
      = (ops.filter (fun op => 1000000 < op.ink)).length := by
    rw [List.length_mergeSort]
    unfold hotspot_candidates
    rw [List.length_map, List.enum_length]
  refine ⟨?_, ?_, ?_, ?_, rfl, rfl⟩
  · show ((((hotspot_candidates ops).mergeSort _).enum.map
      fun p => { p.2 with rank := p.1 + 1 }).map (·.rank)) = _
    rw [List.map_map]
    have h1 : ((fun h : Hotspot => h.rank)
        ∘ fun p : Nat × Hotspot => { p.2 with rank := p.1 + 1 })
        = fun p : Nat × Hotspot => p.1 + 1 := rfl
    rw [h1]
    have h2 : (fun p : Nat × Hotspot => p.1 + 1)
        = (fun n : Nat => n + 1) ∘ Prod.fst := rfl
    rw [h2, ← List.map_map, List.enum_map_fst, ← hlen, List.range'_eq_map_range]
    apply List.map_congr_left
    intro a _
    omega
  · have hsorted := List.sorted_mergeSort hotspot_le_trans hotspot_le_total
      (hotspot_candidates ops)
    have hmap : (compute_hotspots ops).map (·.ink)
        = ((hotspot_candidates ops).mergeSort
            (fun a b => decide (b.ink ≤ a.ink))).map (·.ink) :=
      map_rank_overwrite _ _ (fun _ _ => rfl)
    have hp : ((compute_hotspots ops).map (·.ink)).Pairwise (fun x y => y ≤ x) := by
      rw [hmap]
      exact List.pairwise_map.mpr (hsorted.imp (by
        intro a b h
        simpa using h))
    have := List.pairwise_map.mp hp
    exact this
  · have hmap : (compute_hotspots ops).map hsTriple
        = ((hotspot_candidates ops).mergeSort
            (fun a b => decide (b.ink ≤ a.ink))).map hsTriple :=
      map_rank_overwrite _ _ (fun _ _ => rfl)
    rw [hmap]
    have hperm := (List.mergeSort_perm (hotspot_candidates ops)
      (fun a b => decide (b.ink ≤ a.ink))).map hsTriple
    apply hperm.trans
    unfold hotspot_candidates
    rw [List.map_map]
    have h1 : (hsTriple ∘ fun p : Nat × Operation =>
        ({ line := p.2.line, ink := p.2.ink, operation := p.2.operation,
           rank := p.1 + 1 } : Hotspot))
        = (fun p : Nat × Operation => opTriple p.2) := rfl
    rw [h1]
    have h2 : (fun p : Nat × Operation => opTriple p.2) = opTriple ∘ Prod.snd := rfl
    rw [h2, ← List.map_map, List.enum_map_snd]
  · intro x y hsub hink
    have hxy : (fun a b : Hotspot => decide (b.ink ≤ a.ink)) x y = true := by
      simp [hink]
    have hsub' := List.pair_sublist_mergeSort hotspot_le_trans hotspot_le_total
      hxy hsub
    have hmap : (compute_hotspots ops).map hsTriple
        = ((hotspot_candidates ops).mergeSort
            (fun a b => decide (b.ink ≤ a.ink))).map hsTriple :=
      map_rank_overwrite _ _ (fun _ _ => rfl)
    rw [hmap]
    simpa using hsub'.map hsTriple

/-- Four operations: two tied hotspots (ink 2000000 at lines 1 and 3), one
below the 1000000 threshold, one hotspot at 1500000. -/
def c7Ops : List Operation :=
  [{ totalSupplyReadOp with line := 1, ink := 2000000 },
   { totalSupplyReadOp with line := 2, ink := 500000 },
   { totalSupplyReadOp with line := 3, ink := 2000000 },
   { totalSupplyReadOp with line := 4, ink := 1500000 }]

/-- C7 witness: the two tied candidates (encounter order lines 1 then 3) stay
in that order in the hotspot output. -/
theorem C7_witness :
    [hsTriple { line := 1, ink := 2000000, operation := "storage::load", rank := 1 },
     hsTriple { line := 3, ink := 2000000, operation := "storage::load", rank := 2 }].Sublist
      ((compute_hotspots c7Ops).map hsTriple) :=
  (C7_hotspots "t" "sig" 1 c7Ops).2.2.2.1
    { line := 1, ink := 2000000, operation := "storage::load", rank := 1 }
    { line := 3, ink := 2000000, operation := "storage::load", rank := 2 }
    (by decide) (by decide)

/-! ## Contract driver (`analyzer.rs` `analyze_contract` / `visit_item_impl`)

The driver works on the parsed file. An item is a top-level `const` (only its
name matters: selector counting) or an `impl` block (its attribute names and
its functions). A function carries the data the visitor consults — name,
visibility, receiver presence, signature text, start line — plus the
operation list its body yields under the statement classifier (the walk
itself is not consulted by any claim). -/

structure FnItem where
  name : String
  signature : String
  startLine : Nat
  isPublic : Bool
  hasReceiver : Bool
  ops : List Operation
deriving DecidableEq, Repr

inductive FileItem where
  | constItem : String → FileItem
  | implItem : List String → List FnItem → FileItem
deriving DecidableEq, Repr

structure VisitorState where
  target_function : Option String
  functions : List (String × FunctionAnalysis)
  has_router_impl : Bool
  selector_count : Nat
deriving DecidableEq, Repr

/-- `analyzer.rs` lines 190-199: names `analyze_function` skips. -/
def analyzeSkip (name : String) : Bool :=
  name = "required_slots" || ("__stylus_".data).isPrefixOf name.data
    || name = "new" || name = "load" || name = "load_mut" || name = "entrypoint"
    || name = "user_entrypoint" || name = "mark_used"

/-- `analyzer.rs` lines 836-860: does one function make the block look like a
public ABI surface? -/
def likelyAbiFn (f : FnItem) : Bool :=
  if f.name = "new" ∨ f.name = "required_slots"
      ∨ ("__stylus_".data).isPrefixOf f.name.data
      ∨ f.name = "load" ∨ f.name = "load_mut" ∨ f.name = "entrypoint"
      ∨ f.name = "user_entrypoint" ∨ f.name = "mark_used"
      ∨ f.name = "route" ∨ f.name = "dispatch"
  then false
  else f.isPublic && f.hasReceiver && !(("_".data).isPrefixOf f.name.data)

/-- `analyzer.rs` lines 884-897: names skipped inside the analysis loop. -/
def driverSkip (name : String) : Bool :=
  name = "route" || name = "dispatch" || ("__".data).isPrefixOf name.data
    || name = "new" || name = "load" || name = "load_mut" || name = "entrypoint"
    || name = "user_entrypoint" || name = "mark_used" || name = "required_slots"

/-- `analyzer.rs` lines 868-875 and 909-916: router/dispatch indicator. -/
def isRouterFn (f : FnItem) : Bool :=
  f.name = "route" || f.name = "user_entrypoint" || f.name = "dispatch"

/-- `analyzer.rs` lines 924-929: `SELECTOR_*` / `*_SELECTOR` constants. -/
def isSelectorName (name : String) : Bool :=
  ("SELECTOR_".data).isPrefixOf name.data
    || ("_SELECTOR".data).isSuffixOf name.data

/-- `HashMap::insert` : replace the entry in place or append a new one. -/
def insertFun (m : List (String × FunctionAnalysis)) (k : String)
    (v : FunctionAnalysis) : List (String × FunctionAnalysis) :=
  match m with
  | [] => [(k, v)]
  | (k', v') :: rest =>
    if k' = k then (k, v) :: rest else (k', v') :: insertFun rest k v

/-- `analyzer.rs` lines 176-256: the guards of `analyze_function` (target
filter, internal-helper skip) and the final insert. -/
def analyzeFnInto (s : VisitorState) (f : FnItem) : VisitorState :=
  if (match s.target_function with
      | some t => decide (t ≠ f.name)
      | none => false) then s
  else if analyzeSkip f.name then s
  else
    { s with
      functions := insertFun s.functions f.name
        (analyze_function f.name f.signature f.startLine f.ops) }

/-- `analyzer.rs` lines 828-921 `visit_item_impl` : the three-way eligibility
test, the analysis loop, then the router flag update. -/
def visitImpl (st : VisitorState) (attrs : List String) (fns : List FnItem) :
    VisitorState :=
  let has_external_attr := attrs.any (fun a => a = "external" || a = "public")
  let has_likely_abi_method := fns.any likelyAbiFn
  let is_probably_sol_style : Bool :=
    2 ≤ st.selector_count ∨ st.has_router_impl = true
      ∨ attrs.contains "stylus_assert_overrides" = true
      ∨ fns.any isRouterFn = true
  let should_analyze := has_external_attr || has_likely_abi_method
      || is_probably_sol_style
  let st1 :=
    if should_analyze then
      fns.foldl (fun s f => if driverSkip f.name then s else analyzeFnInto s f) st
    else st
  if fns.any isRouterFn then { st1 with has_router_impl := true } else st1

/-- The full file traversal (`visit_file`), in item order. -/
def runVisitor (items : List FileItem) (target : Option String) : VisitorState :=
  items.foldl
    (fun st item =>
      match item with
      | .constItem n =>
        if isSelectorName n then { st with selector_count := st.selector_count + 1 }
        else st
      | .implItem attrs fns => visitImpl st attrs fns)
    { target_function := target, functions := [], has_router_impl := false,
      selector_count := 0 }

/-- Suffix of `l` starting at the first occurrence of `pat` (Rust
`str::find`). -/
def dropUntilSub (pat : List Char) : List Char → Option (List Char)
  | [] => if pat.isEmpty then some [] else none
  | c :: rest =>
    if pat.isPrefixOf (c :: rest) then some (c :: rest)
    else dropUntilSub pat rest

/-- Rust `split_whitespace` : maximal runs of non-whitespace characters. -/
def splitWsGo : List Char → List Char → List (List Char)
  | [], acc => if acc.isEmpty then [] else [acc.reverse]
  | c :: rest, acc =>
    if Char.isWhitespace c then
      if acc.isEmpty then splitWsGo rest []
      else acc.reverse :: splitWsGo rest []
    else splitWsGo rest (c :: acc)

/-- `analyzer.rs` lines 934-945 `extract_contract_name` : the third
whitespace-separated token of the text between the first `pub struct` and its
opening brace; `"Unknown"` when anything is missing. -/
def extract_contract_name (source : String) : String :=
  match dropUntilSub ("pub struct".data) source.data with
  | some after =>
    if after.contains '\x7b' then
      let declaration := after.takeWhile (fun c => c ≠ '\x7b')
      match (splitWsGo declaration []).drop 2 with
      | w :: _ => ⟨w⟩
      | [] => "Unknown"
    else "Unknown"
  | none => "Unknown"

/-- `types.rs` `ContractAnalysis` (the function map as an association list). -/
structure ContractAnalysis where
  contract_name : String
  file : String
  functions : List (String × FunctionAnalysis)
deriving DecidableEq, Repr

/-- The diagnostic built in `analyzer.rs` lines 39-49, with the file label and
the selector count interpolated. -/
def noEntryPointsMessage (file_path_rel : String) (selector_count : Nat) : String :=
  "No public/external functions detected.\nPossible causes:\n• No #[public]/#[external] attributes found (classic Stylus style)\n• Contract uses sol! macro (no attributes, dispatch via Router + SELECTOR_*)\n• Methods are private or internal helpers only\nFile: "
    ++ file_path_rel
    ++ "\nSelectors found: "
    ++ toString selector_count
    ++ " (if > 0 → likely sol! style)"

/-- `analyzer.rs` lines 26-57 `analyze_contract` : run the visitor over the
parsed items; fail hard when no function qualified, otherwise assemble the
report. `items` stands for the parse of `source` (parsing is outside the
embedding; a parse failure is the other, earlier error path). -/
def analyze_contract (source : String) (items : List FileItem)
    (target : Option String) (file_path_rel : String) :
    Except String ContractAnalysis :=
  if (runVisitor items target).functions.isEmpty then
    .error (noEntryPointsMessage file_path_rel (runVisitor items target).selector_count)
  else
    .ok { contract_name := extract_contract_name source
          file := file_path_rel
          functions := (runVisitor items target).functions }

/-! ## C8 : the no-entry-points hard error -/

theorem listHasSub_of_prefix (pat l : List Char) (h : pat.isPrefixOf l = true) :
    listHasSub pat l = true := by
  cases l with
  | nil =>
    cases pat with
    | nil => rfl
    | cons c p => simp [List.isPrefixOf] at h
  | cons c rest => simp [listHasSub, h]

theorem listHasSub_append (pat a b : List Char) :
    listHasSub pat (a ++ pat ++ b) = true := by
  induction a with
  | nil =>
    apply listHasSub_of_prefix
    rw [List.isPrefixOf_iff_prefix]
    simp
  | cons c a' ih =>
    show listHasSub pat (c :: a' ++ pat ++ b) = true
    rw [show (c :: a' ++ pat ++ b) = c :: (a' ++ pat ++ b) by simp]
    rw [listHasSub, ih, Bool.or_true]

theorem strContains_interpolated (p1 path p2 mid p3 : String) :
    strContains (p1 ++ path ++ p2 ++ mid ++ p3) mid = true := by
  unfold strContains
  simp only [String.data_append]
  have h := listHasSub_append mid.data (p1.data ++ path.data ++ p2.data) p3.data
  simpa [List.append_assoc] using h

/-- C8: whenever the traversal leaves the function map empty, the analysis
returns the hard error value (never a success with an empty collection), and
the diagnostic text contains the count of selector-like constants observed in
the file. -/
theorem C8_no_entry_points (source : String) (items : List FileItem)
    (target : Option String) (path : String)
    (h : (runVisitor items target).functions = []) :
    analyze_contract source items target path
        = Except.error
            (noEntryPointsMessage path (runVisitor items target).selector_count)
    ∧ strContains
        (noEntryPointsMessage path (runVisitor items target).selector_count)
        (toString (runVisitor items target).selector_count) = true := by
  constructor
  · unfold analyze_contract
    rw [h]
    rfl
  · unfold noEntryPointsMessage
    exact strContains_interpolated _ _ _ _ _

/-- A file with a single impl block holding one private helper: no external
attribute, no public receiver method, no sol-style signal. -/
def c8Items : List FileItem :=
  [FileItem.implItem []
    [{ name := "calculate_fee"
       signature := "fn calculate_fee (& self, amount : U256) -> U256"
       startLine := 10
       isPublic := false
       hasReceiver := true
       ops := [] }]]

/-- C8 witness: the private-helpers-only file produces the hard error with
the selector count in its text. -/
theorem C8_witness :
    analyze_contract "pub struct Token" c8Items none "contracts/lib.rs"
        = Except.error
            (noEntryPointsMessage "contracts/lib.rs"
              (runVisitor c8Items none).selector_count)
    ∧ strContains
        (noEntryPointsMessage "contracts/lib.rs"
          (runVisitor c8Items none).selector_count)
        (toString (runVisitor c8Items none).selector_count) = true :=
  C8_no_entry_points "pub struct Token" c8Items none "contracts/lib.rs" (by decide)

/-! ## Instrumentor (`instrumentor.rs`)

Statements are modeled at the granularity `visit_block_mut` works at: a
`let`-with-initializer or an expression statement, whose expression is either
a leaf snippet or a block of statements. A leaf carries the normalized text
of the source expression (the `quote!` output with the whitespace around `.`
and `(` removed, which is what every predicate of the source consults); the
extra `cfg` tag records the attribute `inject_probe` prepends
(`#[cfg(feature = "ink-profiling")]` / `#[cfg(not(...))]` / none), which syn
traversal ignores but the flag-off build erases. -/

inductive Cfg | plain | flagOn | flagOff
deriving DecidableEq, Repr

inductive RStmt where
  | letRaw : Cfg → String → String → RStmt
  | letBlk : Cfg → String → List RStmt → RStmt
  | exprRaw : Cfg → String → RStmt
  | exprBlk : Cfg → List RStmt → RStmt

/- The re-serialized text of a statement / of a statement list, mirroring
`quote!(#stmt).to_string()` on the normalized snippets. -/
mutual
def renderStmtS : RStmt → String
  | .letRaw _ x s => "let " ++ x ++ " = " ++ s ++ " ; "
  | .letBlk _ x b => "let " ++ x ++ " = \x7b " ++ renderStmts b ++ "\x7d ; "
  | .exprRaw _ s => s ++ " ; "
  | .exprBlk _ b => "\x7b " ++ renderStmts b ++ "\x7d "
def renderStmts : List RStmt → String
  | [] => ""
  | s :: rest => renderStmtS s ++ renderStmts rest
end

/-- The text of the expression `should_instrument` / `classify_operation`
look at: the initializer of a `let`, or the statement expression itself. -/
def exprStr : RStmt → String
  | .letRaw _ _ s => s
  | .letBlk _ _ b => "\x7b " ++ renderStmts b ++ "\x7d"
  | .exprRaw _ s => s
  | .exprBlk _ b => "\x7b " ++ renderStmts b ++ "\x7d"

/-- `instrumentor.rs` lines 374-386 `is_storage_operation`. -/
def is_storage_operation (e : String) : Bool :=
  strContains e "self."
    && (strContains e ".get(" || strContains e ".insert(" || strContains e ".set("
        || (strContains e "self." && !(strContains e "(")))

/-- `instrumentor.rs` lines 389-399 `is_expensive_operation` (the source
applies it to the unnormalized `quote!` text; on the normalized snippets the
path patterns can also match — none of the verified inputs contain them). -/
def is_expensive_operation (e : String) : Bool :=
  strContains e "msg::sender()" || strContains e "msg::value()"
    || strContains e "evm::log(" || strContains e "block::"
    || strContains e ".call(" || strContains e "Call::new"
    || strContains e "keccak256" || strContains e "sha256"

/-- `instrumentor.rs` lines 402-424 `classify_operation`. -/
def classify_operation (e : String) : Option String :=
  if strContains e ".get(" || strContains e ".at(" then some "storage_read"
  else if strContains e ".insert(" || strContains e ".set(" then some "storage_write"
  else if strContains e "evm::log(" then some "event_emit"
  else if strContains e "msg::sender()" then some "msg_sender"
  else if strContains e "msg::value()" then some "msg_value"
  else if strContains e "block::" then some "block_info"
  else none

/-- `instrumentor.rs` `InstrumentedOperation` (`line` is always written 0). -/
structure InstrumentedOperation where
  probe_id : Nat
  operation_type : String
  line : Nat
deriving DecidableEq, Repr

/-- The mutable state of `Instrumentor`: the probe counter and the recorded
operations. -/
structure InstState where
  probe_counter : Nat
  instrumented_operations : List InstrumentedOperation
deriving DecidableEq, Repr

/-- Prepending a `cfg` attribute to an existing statement. -/
def setCfg (c : Cfg) : RStmt → RStmt
  | .letRaw _ x s => .letRaw c x s
  | .letBlk _ x b => .letBlk c x b
  | .exprRaw _ s => .exprRaw c s
  | .exprBlk _ b => .exprBlk c b

/-- `instrumentor.rs` lines 320-371 `inject_probe` : draw the next probe id,
record the operation, and emit the probe-wrapped statement sequence — the
four-statement storage-read form capturing the result into `__result` inside
an injected block, or the three-statement general form with the original
statement untouched between two guarded probes. -/
def inject_probe (st : InstState) (stmt : RStmt) (operation_type : String) :
    InstState × List RStmt :=
  let pid := st.probe_counter
  let st' : InstState :=
    ⟨st.probe_counter + 1,
      st.instrumented_operations ++ [⟨pid, operation_type, 0⟩]⟩
  if strContains operation_type "storage_read" then
    (st',
      [.letRaw .flagOn "__ink_before"
          ("__ink_profiling::probe_before(" ++ toString pid ++ "u32)"),
        .letBlk .flagOn "__result" [stmt],
        setCfg .flagOff stmt,
        .exprBlk .flagOn
          [.letRaw .plain "__size" "std::mem::size_of_val(&__result)",
            .exprRaw .plain
              ("__ink_profiling::probe_after_with_size(" ++ toString pid
                ++ "u32,__ink_before,__size,Some(" ++ operation_type ++ "))"),
            .exprRaw .plain "__result"]])
  else
    (st',
      [.letRaw .flagOn "__ink_before"
          ("__ink_profiling::probe_before(" ++ toString pid ++ "u32)"),
        stmt,
        .exprRaw .flagOn
          ("__ink_profiling::probe_after(" ++ toString pid
            ++ "u32,__ink_before,Some(" ++ operation_type ++ "))")])

/-- `instrumentor.rs` lines 453-468: is this statement instrumented? -/
def should_instrument (s : RStmt) : Bool :=
  is_storage_operation (exprStr s) || is_expensive_operation (exprStr s)

/-- One statement of the replacement loop (`visit_block_mut` lines 470-492):
instrument when the predicate and the classifier agree, else pass through. -/
def replaceOne (st : InstState) (s : RStmt) : InstState × List RStmt :=
  if should_instrument s then
    match classify_operation (exprStr s) with
    | some t => inject_probe st s t
    | none => (st, [s])
  else (st, [s])

/-- The whole replacement phase of `visit_block_mut` over `node.stmts`. -/
def replaceStmts (st : InstState) : List RStmt → InstState × List RStmt
  | [] => (st, [])
  | s :: rest =>
    let p := replaceOne st s
    let q := replaceStmts p.1 rest
    (q.1, p.2 ++ q.2)

/- `visit_block_mut` (lines 450-499) with the `syn` recursion it triggers:
replace the statements, then let the default traversal descend into every
nested block of the new statements — which re-enters `visit_block_mut`. The
`fuel` argument is the embedding's recursion budget: `none` means the
traversal did not finish within any allotted depth (the source has no such
bound and simply does not terminate in that case). -/
mutual
def visitBlock : Nat → InstState → List RStmt → Option (InstState × List RStmt)
  | 0, _, _ => none
  | fuel + 1, st, stmts =>
    visitStmts fuel (replaceStmts st stmts).1 (replaceStmts st stmts).2
def visitStmts : Nat → InstState → List RStmt → Option (InstState × List RStmt)
  | _, st, [] => some (st, [])
  | fuel, st, s :: rest =>
    match visitStmt fuel st s with
    | none => none
    | some (st1, s') =>
      match visitStmts fuel st1 rest with
      | none => none
      | some (st2, rest') => some (st2, s' :: rest')
def visitStmt : Nat → InstState → RStmt → Option (InstState × RStmt)
  | fuel, st, .letBlk c x b =>
    match visitBlock fuel st b with
    | none => none
    | some (st', b') => some (st', .letBlk c x b')
  | fuel, st, .exprBlk c b =>
    match visitBlock fuel st b with
    | none => none
    | some (st', b') => some (st', .exprBlk c b')
  | _, st, s => some (st, s)
end

/-- Instrumenting one `#[external]` function body from a fresh instrumentor,
as `Instrumentor::instrument` does through `visit_item_impl_mut`. -/
def instrument_block (fuel : Nat) (stmts : List RStmt) :
    Option (InstState × List RStmt) :=
  visitBlock fuel ⟨0, []⟩ stmts

/-! ## C4 : the storage-read wrapper is re-instrumented forever -/

/-- `let balance = self.balances.get(owner);` -/
def readStmt : RStmt := .letRaw .plain "balance" "self.balances.get(owner)"

/-- `self.balances.insert(owner, balance - 100);` -/
def writeStmt : RStmt := .exprRaw .plain "self.balances.insert(owner,balance-100)"

theorem visitBlock_read_none : ∀ (fuel : Nat) (st : InstState),
    visitBlock fuel st [readStmt] = none := by
  intro fuel
  induction fuel with
  | zero => intro st; simp [visitBlock]
  | succ n ih =>
    intro st
    have hs : should_instrument readStmt = true := by decide
    have hc : classify_operation (exprStr readStmt) = some "storage_read" := by decide
    have hrep : replaceStmts st [readStmt]
        = ((inject_probe st readStmt "storage_read").1,
            (inject_probe st readStmt "storage_read").2 ++ []) := by
      simp [replaceStmts, replaceOne, hs, hc]
    have hrd : strContains "storage_read" "storage_read" = true := by decide
    rw [visitBlock, hrep]
    simp [inject_probe, hrd, visitStmts, visitStmt, ih]

/-- C4: instrumenting a function body holding exactly one storage-read
statement and one storage-write statement never finishes, for every recursion
budget: the read is rewritten into a `let __result = { stmt };` wrapper whose
nested block the traversal then revisits and re-instruments, forever (stack
overflow in the source). The records therefore never become the claimed two
entries with probe ids 0 and 1 — the repository's own test
`test_instrumented_operations_tracking` expects this call to return. -/
theorem C4_instrument_diverges : ∀ (fuel : Nat),
    instrument_block fuel [readStmt, writeStmt] = none := by
  intro fuel
  unfold instrument_block
  cases fuel with
  | zero => simp [visitBlock]
  | succ n =>
    have hs : should_instrument readStmt = true := by decide
    have hc : classify_operation (exprStr readStmt) = some "storage_read" := by decide
    have hsw : should_instrument writeStmt = true := by decide
    have hcw : classify_operation (exprStr writeStmt) = some "storage_write" := by decide
    have hrd : strContains "storage_read" "storage_read" = true := by decide
    have hwr : strContains "storage_write" "storage_read" = false := by decide
    rw [visitBlock]
    simp [replaceStmts, replaceOne, hs, hc, hsw, hcw, inject_probe, hrd, hwr,
      visitStmts, visitStmt, visitBlock_read_none n]

/-! ## C5 : the flag-off build erases instrumentation exactly

`eraseStmt?` / `eraseBlock` model compiling with the `ink-profiling` feature
disabled: statements under `#[cfg(feature = "ink-profiling")]` disappear,
statements under `#[cfg(not(...))]` stay with the attribute consumed, and
everything else stays, recursively. `untagged` says a statement tree carries
no cfg attributes (any statement of the input source); `innerOk` says the
nested blocks of a statement are untagged — the invariant the injected
statements satisfy. -/

mutual
def eraseStmt? : RStmt → Option RStmt
  | .letRaw c x s => if c = .flagOn then none else some (.letRaw .plain x s)
  | .letBlk c x b => if c = .flagOn then none else some (.letBlk .plain x (eraseBlock b))
  | .exprRaw c s => if c = .flagOn then none else some (.exprRaw .plain s)
  | .exprBlk c b => if c = .flagOn then none else some (.exprBlk .plain (eraseBlock b))
def eraseBlock : List RStmt → List RStmt
  | [] => []
  | s :: rest =>
    match eraseStmt? s with
    | some s' => s' :: eraseBlock rest
    | none => eraseBlock rest
end

mutual
def untaggedStmt : RStmt → Bool
  | .letRaw c _ _ => c = .plain
  | .exprRaw c _ => c = .plain
  | .letBlk c _ b => c = .plain && untaggedList b
  | .exprBlk c b => c = .plain && untaggedList b
def untaggedList : List RStmt → Bool
  | [] => true
  | s :: rest => untaggedStmt s && untaggedList rest
end

def innerOk : RStmt → Bool
  | .letBlk _ _ b => untaggedList b
  | .exprBlk _ b => untaggedList b
  | _ => true

def innerOkList : List RStmt → Bool
  | [] => true
  | s :: rest => innerOk s && innerOkList rest

mutual
theorem erase_untagged_stmt (s : RStmt) (h : untaggedStmt s = true) :
    eraseStmt? s = some s := by
  cases s with
  | letRaw c x str =>
    simp only [untaggedStmt, decide_eq_true_eq] at h
    simp [eraseStmt?, h]
  | exprRaw c str =>
    simp only [untaggedStmt, decide_eq_true_eq] at h
    simp [eraseStmt?, h]
  | letBlk c x b =>
    simp only [untaggedStmt, Bool.and_eq_true, decide_eq_true_eq] at h
    simp [eraseStmt?, h.1, erase_untagged_list b h.2]
  | exprBlk c b =>
    simp only [untaggedStmt, Bool.and_eq_true, decide_eq_true_eq] at h
    simp [eraseStmt?, h.1, erase_untagged_list b h.2]
theorem erase_untagged_list (l : List RStmt) (h : untaggedList l = true) :
    eraseBlock l = l := by
  cases l with
  | nil => rfl
  | cons s rest =>
    simp only [untaggedList, Bool.and_eq_true] at h
    simp [eraseBlock, erase_untagged_stmt s h.1, erase_untagged_list rest h.2]
end

theorem innerOk_of_untagged (s : RStmt) (h : untaggedStmt s = true) :
    innerOk s = true := by
  cases s with
  | letRaw c x str => rfl
  | exprRaw c str => rfl
  | letBlk c x b =>
    simp only [untaggedStmt, Bool.and_eq_true] at h
    simpa [innerOk] using h.2
  | exprBlk c b =>
    simp only [untaggedStmt, Bool.and_eq_true] at h
    simpa [innerOk] using h.2

theorem innerOk_setCfg (c : Cfg) (s : RStmt) : innerOk (setCfg c s) = innerOk s := by
  cases s <;> rfl

theorem erase_setCfgOff (s : RStmt) (h : untaggedStmt s = true) :
    eraseStmt? (setCfg .flagOff s) = some s := by
  cases s with
  | letRaw c x str =>
    simp only [untaggedStmt, decide_eq_true_eq] at h
    simp [setCfg, eraseStmt?, h]
  | exprRaw c str =>
    simp only [untaggedStmt, decide_eq_true_eq] at h
    simp [setCfg, eraseStmt?, h]
  | letBlk c x b =>
    simp only [untaggedStmt, Bool.and_eq_true, decide_eq_true_eq] at h
    simp [setCfg, eraseStmt?, h.1, erase_untagged_list b h.2]
  | exprBlk c b =>
    simp only [untaggedStmt, Bool.and_eq_true, decide_eq_true_eq] at h
    simp [setCfg, eraseStmt?, h.1, erase_untagged_list b h.2]

theorem eraseBlock_append (a b : List RStmt) :
    eraseBlock (a ++ b) = eraseBlock a ++ eraseBlock b := by
  induction a with
  | nil => rfl
  | cons s rest ih =>
    show eraseBlock (s :: (rest ++ b)) = eraseBlock (s :: rest) ++ eraseBlock b
    rw [eraseBlock, eraseBlock]
    cases eraseStmt? s with
    | none => simpa using ih
    | some s' => simpa using ih

theorem innerOkList_append (a b : List RStmt) :
    innerOkList (a ++ b) = (innerOkList a && innerOkList b) := by
  induction a with
  | nil => simp [innerOkList]
  | cons s rest ih =>
    show innerOkList (s :: (rest ++ b)) = _
    rw [innerOkList, ih, innerOkList, Bool.and_assoc]

theorem replaceOne_innerOk (st : InstState) (s : RStmt) (h : untaggedStmt s = true) :
    innerOkList (replaceOne st s).2 = true := by
  have hs : innerOk s = true := innerOk_of_untagged s h
  have hsingle : innerOkList [s] = true := by
    simp [innerOkList, hs]
  have hset : innerOk (setCfg Cfg.flagOff s) = true := by
    rw [innerOk_setCfg]
    exact hs
  have hblk : innerOk (RStmt.letBlk Cfg.flagOn "__result" [s]) = true := by
    show untaggedList [s] = true
    rw [untaggedList, h]
    simp [untaggedList]
  unfold replaceOne
  split
  case isTrue =>
    cases hcl : classify_operation (exprStr s) with
    | none => simpa [hcl] using hsingle
    | some t =>
      simp only [hcl]
      unfold inject_probe
      split
      case isTrue =>
        simp only [innerOkList, hblk, hset, Bool.and_eq_true]
        simp [innerOk, untaggedList, untaggedStmt]
      case isFalse =>
        simp only [innerOkList, hs, Bool.and_eq_true]
        simp [innerOk]
  case isFalse => simpa using hsingle

theorem replaceOne_erase (st : InstState) (s : RStmt) (h : untaggedStmt s = true) :
    eraseBlock (replaceOne st s).2 = [s] := by
  have hsingle : eraseBlock [s] = [s] := by
    simp [eraseBlock, erase_untagged_stmt s h]
  unfold replaceOne
  split
  case isTrue =>
    cases hcl : classify_operation (exprStr s) with
    | none => simpa [hcl] using hsingle
    | some t =>
      simp only [hcl]
      unfold inject_probe
      split
      case isTrue =>
        simp [eraseBlock, eraseStmt?, erase_setCfgOff s h]
      case isFalse =>
        simp [eraseBlock, eraseStmt?, erase_untagged_stmt s h]
  case isFalse => simpa using hsingle

theorem replaceStmts_innerOk (l : List RStmt) :
    ∀ st : InstState, untaggedList l = true →
      innerOkList (replaceStmts st l).2 = true := by
  induction l with
  | nil => intro st h; rfl
  | cons s rest ih =>
    intro st h
    simp only [untaggedList, Bool.and_eq_true] at h
    show innerOkList ((replaceOne st s).2 ++ (replaceStmts (replaceOne st s).1 rest).2)
        = true
    rw [innerOkList_append, replaceOne_innerOk st s h.1,
      ih (replaceOne st s).1 h.2, Bool.and_self]

theorem replaceStmts_erase (l : List RStmt) :
    ∀ st : InstState, untaggedList l = true →
      eraseBlock (replaceStmts st l).2 = l := by
  induction l with
  | nil => intro st h; rfl
  | cons s rest ih =>
    intro st h
    simp only [untaggedList, Bool.and_eq_true] at h
    show eraseBlock ((replaceOne st s).2 ++ (replaceStmts (replaceOne st s).1 rest).2)
        = s :: rest
    rw [eraseBlock_append, replaceOne_erase st s h.1, ih (replaceOne st s).1 h.2]
    rfl

theorem visitStmt_erase_of (fuel : Nat)
    (hB : ∀ (st : InstState) (l : List RStmt) (st' : InstState) (out : List RStmt),
      untaggedList l = true → visitBlock fuel st l = some (st', out) →
        eraseBlock out = l) :
    ∀ (st : InstState) (s : RStmt) (st' : InstState) (s' : RStmt),
      innerOk s = true → visitStmt fuel st s = some (st', s') →
        eraseStmt? s' = eraseStmt? s := by
  intro st s st' s' hok hv
  cases s with
  | letRaw c x str =>
    simp only [visitStmt, Option.some.injEq, Prod.mk.injEq] at hv
    rw [← hv.2]
  | exprRaw c str =>
    simp only [visitStmt, Option.some.injEq, Prod.mk.injEq] at hv
    rw [← hv.2]
  | letBlk c x b =>
    simp only [visitStmt] at hv
    cases hb : visitBlock fuel st b with
    | none => rw [hb] at hv; simp at hv
    | some p =>
      rw [hb] at hv
      simp only [Option.some.injEq, Prod.mk.injEq] at hv
      have hub : untaggedList b = true := by simpa [innerOk] using hok
      have hbb := hB st b p.1 p.2 hub (by rw [hb])
      rw [← hv.2]
      by_cases hc : c = .flagOn
      · simp [eraseStmt?, hc]
      · simp [eraseStmt?, hc, hbb, erase_untagged_list b hub]
  | exprBlk c b =>
    simp only [visitStmt] at hv
    cases hb : visitBlock fuel st b with
    | none => rw [hb] at hv; simp at hv
    | some p =>
      rw [hb] at hv
      simp only [Option.some.injEq, Prod.mk.injEq] at hv
      have hub : untaggedList b = true := by simpa [innerOk] using hok
      have hbb := hB st b p.1 p.2 hub (by rw [hb])
      rw [← hv.2]
      by_cases hc : c = .flagOn
      · simp [eraseStmt?, hc]
      · simp [eraseStmt?, hc, hbb, erase_untagged_list b hub]

theorem visitStmts_erase_of (fuel : Nat)
    (hT : ∀ (st : InstState) (s : RStmt) (st' : InstState) (s' : RStmt),
      innerOk s = true → visitStmt fuel st s = some (st', s') →
        eraseStmt? s' = eraseStmt? s) :
    ∀ (l : List RStmt) (st st' : InstState) (out : List RStmt),
      innerOkList l = true → visitStmts fuel st l = some (st', out) →
        eraseBlock out = eraseBlock l := by
  intro l
  induction l with
  | nil =>
    intro st st' out h hv
    simp only [visitStmts, Option.some.injEq, Prod.mk.injEq] at hv
    obtain ⟨h1, h2⟩ := hv
    subst h2
    rfl
  | cons s rest ih =>
    intro st st' out hok hv
    simp only [innerOkList, Bool.and_eq_true] at hok
    simp only [visitStmts] at hv
    cases hts : visitStmt fuel st s with
    | none =>
      rw [hts] at hv
      exact absurd hv (by simp)
    | some p =>
      rw [hts] at hv
      simp only [] at hv
      cases hrest : visitStmts fuel p.1 rest with
      | none =>
        rw [hrest] at hv
        exact absurd hv (by simp)
      | some q =>
        rw [hrest] at hv
        simp only [Option.some.injEq, Prod.mk.injEq] at hv
        obtain ⟨h1, h2⟩ := hv
        subst h2
        have he := hT st s p.1 p.2 hok.1 (by rw [hts])
        have hr := ih p.1 q.1 q.2 hok.2 (by rw [hrest])
        show eraseBlock (p.2 :: q.2) = eraseBlock (s :: rest)
        rw [eraseBlock, eraseBlock, he]
        cases eraseStmt? s with
        | none => simpa using hr
        | some t => simpa using hr

theorem erase_visitBlock (fuel : Nat) :
    ∀ (st : InstState) (l : List RStmt) (st' : InstState) (out : List RStmt),
      untaggedList l = true → visitBlock fuel st l = some (st', out) →
        eraseBlock out = l := by
  induction fuel with
  | zero =>
    intro st l st' out hu h
    simp [visitBlock] at h
  | succ n ih =>
    intro st l st' out hu h
    rw [visitBlock] at h
    have hok := replaceStmts_innerOk l st hu
    have her := replaceStmts_erase l st hu
    have hmain := visitStmts_erase_of n (visitStmt_erase_of n ih)
      (replaceStmts st l).2 (replaceStmts st l).1 st' out hok h
    exact hmain.trans her

/-- C5: whenever instrumentation of an (attribute-free) statement list
finishes, compiling the output with the `ink-profiling` feature disabled
yields back exactly the original statements — the probe statements are
compiled out and every instrumented statement survives unchanged (the
appended runtime module is itself feature-gated and disappears too, so the
flag-off build is the uninstrumented program). -/
theorem C5_flag_off_erasure (fuel : Nat) (stmts : List RStmt)
    (st st' : InstState) (out : List RStmt)
    (hu : untaggedList stmts = true)
    (h : visitBlock fuel st stmts = some (st', out)) :
    eraseBlock out = stmts :=
  erase_visitBlock fuel st stmts st' out hu h

/-- The instrumented output for the lone storage-write statement. -/
def c5Out : List RStmt :=
  [.letRaw .flagOn "__ink_before"
      ("__ink_profiling::probe_before(" ++ toString 0 ++ "u32)"),
    writeStmt,
    .exprRaw .flagOn
      ("__ink_profiling::probe_after(" ++ toString 0
        ++ "u32,__ink_before,Some(" ++ "storage_write" ++ "))")]

theorem c5_hsw : should_instrument
    (RStmt.exprRaw Cfg.plain "self.balances.insert(owner,balance-100)") = true := by
  decide

theorem c5_hcw : classify_operation
    (exprStr (RStmt.exprRaw Cfg.plain "self.balances.insert(owner,balance-100)"))
    = some "storage_write" := by decide

theorem c5_hrep : replaceStmts ⟨0, []⟩ [writeStmt]
    = (⟨1, [⟨0, "storage_write", 0⟩]⟩, c5Out) := by
  have hwr : strContains "storage_write" "storage_read" = false := by decide
  simp [replaceStmts, replaceOne, c5_hsw, c5_hcw, inject_probe, hwr, c5Out, writeStmt]

theorem visitStmt_letRaw (f : Nat) (st : InstState) (c : Cfg) (x s : String) :
    visitStmt f st (.letRaw c x s) = some (st, .letRaw c x s) := by
  rw [visitStmt.eq_def]

theorem visitStmt_exprRaw (f : Nat) (st : InstState) (c : Cfg) (s : String) :
    visitStmt f st (.exprRaw c s) = some (st, .exprRaw c s) := by
  rw [visitStmt.eq_def]

theorem visitStmts_nil_eq (f : Nat) (st : InstState) :
    visitStmts f st [] = some (st, []) := by
  rw [visitStmts.eq_def]

theorem visitStmts_cons_eq (f : Nat) (st : InstState) (s : RStmt) (rest : List RStmt) :
    visitStmts f st (s :: rest)
      = match visitStmt f st s with
        | none => none
        | some (st1, s1) =>
          match visitStmts f st1 rest with
          | none => none
          | some (st2, rest2) => some (st2, s1 :: rest2) := by
  rw [visitStmts.eq_def]

theorem visitStmts_cons_some {f : Nat} {st st1 st2 : InstState} {s s1 : RStmt}
    {rest rest2 : List RStmt}
    (h1 : visitStmt f st s = some (st1, s1))
    (h2 : visitStmts f st1 rest = some (st2, rest2)) :
    visitStmts f st (s :: rest) = some (st2, s1 :: rest2) := by
  rw [visitStmts_cons_eq, h1]
  show (match visitStmts f st1 rest with
    | none => none
    | some (st2, rest2) => some (st2, s1 :: rest2)) = _
  rw [h2]

theorem c5_hvisit : visitStmts 1 ⟨1, [⟨0, "storage_write", 0⟩]⟩ c5Out
    = some (⟨1, [⟨0, "storage_write", 0⟩]⟩, c5Out) :=
  visitStmts_cons_some (visitStmt_letRaw 1 _ _ _ _)
    (visitStmts_cons_some (visitStmt_exprRaw 1 _ _ _)
      (visitStmts_cons_some (visitStmt_exprRaw 1 _ _ _)
        (visitStmts_nil_eq 1 _)))

/-- C5 witness: a write-only body instruments to the three-statement probe
form, and erasing the feature-gated statements under the disabled flag
restores exactly the original body. -/
theorem C5_witness :
    visitBlock 2 ⟨0, []⟩ [writeStmt]
        = some (⟨1, [⟨0, "storage_write", 0⟩]⟩, c5Out)
    ∧ untaggedList [writeStmt] = true
    ∧ eraseBlock c5Out = [writeStmt] := by
  have h1 : visitBlock 2 ⟨0, []⟩ [writeStmt]
      = some (⟨1, [⟨0, "storage_write", 0⟩]⟩, c5Out) := by
    rw [visitBlock, c5_hrep]
    exact c5_hvisit
  exact ⟨h1, rfl,
    C5_flag_off_erasure 2 [writeStmt] ⟨0, []⟩ ⟨1, [⟨0, "storage_write", 0⟩]⟩ c5Out
      rfl h1⟩

/-! ## C6 : ordering of the host-context (`evm_context`) cost constants -/

/-- C6 counterexample: the claimed ordering
identity < value < block metadata < default fails on the code, where the
constants are sender 300000, value 350000, block 250000, default 200000; in
particular a block-metadata query is strictly cheaper than the identity query,
so `msg::sender` is not the cheapest host-context cost. -/
theorem C6_counterexample :
    estimate_ink_cost "block::number" "evm_context"
      < estimate_ink_cost "msg::sender()" "evm_context"
    ∧ ¬ (estimate_ink_cost "msg::sender()" "evm_context"
          < estimate_ink_cost "msg::value()" "evm_context"
        ∧ estimate_ink_cost "msg::value()" "evm_context"
          < estimate_ink_cost "block::number" "evm_context"
        ∧ estimate_ink_cost "block::number" "evm_context"
          < estimate_ink_cost "tx_origin_query" "evm_context") := by
  constructor
  · decide
  · decide

/-- C6 amended: the per-subtype host-context ink constants are ordered
default < block metadata < identity < value
(200000 < 250000 < 300000 < 350000); the unmatched default carries the
cheapest host-context cost, not the identity query. -/
theorem C6_amended :
    estimate_ink_cost "tx_origin_query" "evm_context"
      < estimate_ink_cost "block::number" "evm_context"
    ∧ estimate_ink_cost "block::number" "evm_context"
      < estimate_ink_cost "msg::sender()" "evm_context"
    ∧ estimate_ink_cost "msg::sender()" "evm_context"
      < estimate_ink_cost "msg::value()" "evm_context" := by
  refine ⟨by decide, by decide, by decide⟩

end Inkwell
